import Mathlib

/-!
# Verification of the stock-predictor core

Shallow embedding of the stock-predictor repository's core modules
(`DataCache`, `StockDataAggregator`, the indicator engine, the feature
preprocessing pipeline, `ModelLoader` and `StockPredictor`) together with
proofs about them.  JavaScript numbers are modelled by exact rationals;
where a claim's truth hinges on IEEE special values (division by zero
producing `NaN`/`Infinity`), an extended number type `JSNum` with the
JavaScript semantics of those special values is used instead.
Wall-clock times (`Date.now()`) are modelled as integer milliseconds.
-/

namespace StockPredictor

/-! ## The `DataCache` of `aggregator.ts`

`DataCache` wraps a `Map<string, CacheEntry>`; `set` stores the entry with
the current timestamp and, when a truthy `ttl` is supplied, schedules a
`setTimeout` deletion of the key `ttl` milliseconds later.  `get` returns
`null` on a missing entry, and deletes-and-misses when
`Date.now() - entry.timestamp > defaultTTL`.  The map is modelled as an
association list, the pending `setTimeout` deletions as a list of
(fire-time, key) pairs which are processed (fired) before any later cache
operation runs — the usual idealisation of the single-threaded event loop. -/

structure CacheEntry (α : Type) where
  data : α
  timestamp : ℤ
  deriving Repr, DecidableEq

structure DataCache (α : Type) where
  entries : List (String × CacheEntry α)
  timers : List (ℤ × String)
  deriving Repr, DecidableEq

def DataCache.empty {α : Type} : DataCache α := ⟨[], []⟩

/-- Lookup `this.cache.get(key)` on the underlying `Map`. -/
def lookupEntry {α : Type} (c : DataCache α) (k : String) : Option (CacheEntry α) :=
  (c.entries.find? (fun p => p.1 == k)).map Prod.snd

/-- Deletion `this.cache.delete(key)` on the underlying `Map`. -/
def deleteKey {α : Type} (c : DataCache α) (k : String) : DataCache α :=
  { c with entries := c.entries.filter (fun p => p.1 != k) }

/-- Fire every scheduled `setTimeout(() => this.cache.delete(key), ttl)`
whose fire time has been reached. -/
def fireTimers {α : Type} (c : DataCache α) (now : ℤ) : DataCache α :=
  let dueKeys := (c.timers.filter (fun t => t.1 ≤ now)).map Prod.snd
  { entries := c.entries.filter (fun p => !(dueKeys.contains p.1)),
    timers := c.timers.filter (fun t => decide (now < t.1)) }

def defaultTTL : ℤ := 60000

/-- Read path `DataCache.get`: miss on absent entry; when
`now - entry.timestamp > defaultTTL` delete the entry and miss; otherwise
return the stored data.  Due timers are fired first. -/
def DataCache.get {α : Type} (c : DataCache α) (k : String) (now : ℤ) :
    Option α × DataCache α :=
  let c1 := fireTimers c now
  match lookupEntry c1 k with
  | none => (none, c1)
  | some e =>
      if now - e.timestamp > defaultTTL then (none, deleteKey c1 k)
      else (some e.data, c1)

/-- Write path `DataCache.set`: store the entry with the write-time timestamp; a
truthy `ttl` (supplied and nonzero) schedules a deletion of the key `ttl`
milliseconds later. -/
def DataCache.set {α : Type} (c : DataCache α) (k : String) (v : α)
    (ttl : Option ℤ) (now : ℤ) : DataCache α :=
  { entries := (k, ⟨v, now⟩) :: c.entries.filter (fun p => p.1 != k),
    timers :=
      match ttl with
      | some t => if t ≠ 0 then (now + t, k) :: c.timers else c.timers
      | none => c.timers }

/-! ## Direction classification (`ensemble.ts` / `predictor.ts`) -/

inductive Direction where
  | up
  | down
  | neutral
  deriving Repr, DecidableEq

/-- Direction classifier `getPredictionDirection` of `ensemble.ts`: neutral when the absolute
fractional change is strictly below the threshold, otherwise by sign. -/
def getPredictionDirection (predictedPrice currentPrice : ℚ)
    (neutralThreshold : ℚ := 5/1000) : Direction :=
  let changePercent := (predictedPrice - currentPrice) / currentPrice
  if |changePercent| < neutralThreshold then .neutral
  else if changePercent > 0 then .up
  else .down

/-- The inline direction classification of `StockPredictor.predict`
(`predictor.ts`): it works with `priceChangePercent` scaled by 100 and
compares against `neutral_threshold * 100`, branching on the sign of the
raw price change. -/
def predictDirection (finalPrediction currentPrice neutralThreshold : ℚ) : Direction :=
  let priceChange := finalPrediction - currentPrice
  let priceChangePercent := priceChange / currentPrice * 100
  if |priceChangePercent| < neutralThreshold * 100 then .neutral
  else if priceChange > 0 then .up
  else .down

end StockPredictor

namespace StockPredictor

/-- C3: the prediction direction is `neutral` exactly when the absolute
percent change is below the neutral threshold, otherwise `up` for a
positive change and `down` for a negative one; the inline classification
of `StockPredictor.predict` agrees with `getPredictionDirection`; and with
`currentPrice = 100`, `neutralThreshold = 0.005`: 100.3 → neutral,
101 → up, 99 → down. -/
theorem direction_classification (pred cur t : ℚ) (hc : 0 < cur) :
    (getPredictionDirection pred cur t = .neutral ↔ |(pred - cur) / cur| < t)
    ∧ (¬ |(pred - cur) / cur| < t → 0 < pred - cur →
        getPredictionDirection pred cur t = .up)
    ∧ (¬ |(pred - cur) / cur| < t → pred - cur < 0 →
        getPredictionDirection pred cur t = .down)
    ∧ predictDirection pred cur t = getPredictionDirection pred cur t
    ∧ getPredictionDirection (1003/10) 100 (5/1000) = .neutral
    ∧ getPredictionDirection 101 100 (5/1000) = .up
    ∧ getPredictionDirection 99 100 (5/1000) = .down := by
  have hc' : cur ≠ 0 := ne_of_gt hc
  refine ⟨?_, ?_, ?_, ?_,
    by simp only [getPredictionDirection, abs_lt]; norm_num,
    by simp only [getPredictionDirection, abs_lt]; norm_num,
    by simp only [getPredictionDirection, abs_lt]; norm_num⟩
  · unfold getPredictionDirection
    constructor
    · intro h
      by_contra hlt
      simp only [if_neg hlt] at h
      split at h <;> simp_all
    · intro h
      simp [h]
  · intro hlt hpos
    have hq : 0 < (pred - cur) / cur := div_pos hpos hc
    unfold getPredictionDirection
    simp [hlt, hq]
  · intro hlt hneg
    have hq : (pred - cur) / cur < 0 := div_neg_of_neg_of_pos hneg hc
    unfold getPredictionDirection
    simp [hlt, not_lt.mpr (le_of_lt hq), asymm hq]
  · unfold predictDirection getPredictionDirection
    have h100 : |(pred - cur) / cur * 100| = |(pred - cur) / cur| * 100 := by
      rw [abs_mul]; norm_num
    have hiff : |(pred - cur) / cur * 100| < t * 100 ↔ |(pred - cur) / cur| < t := by
      rw [h100]
      constructor <;> intro h <;> nlinarith
    have hsign : (0 < (pred - cur) / cur) ↔ (0 < pred - cur) := by
      constructor
      · intro h
        by_contra hn
        push_neg at hn
        have : (pred - cur) / cur ≤ 0 := div_nonpos_of_nonpos_of_nonneg hn (le_of_lt hc)
        linarith
      · intro h
        exact div_pos h hc
    by_cases h1 : |(pred - cur) / cur| < t
    · simp [hiff.mpr h1, h1]
    · by_cases h2 : 0 < pred - cur
      · simp only [if_neg (fun h => h1 (hiff.mp h)), if_neg h1]
        simp [h2, hsign.mpr h2]
      · simp only [if_neg (fun h => h1 (hiff.mp h)), if_neg h1]
        have : ¬ 0 < (pred - cur) / cur := fun h => h2 (hsign.mp h)
        simp [h2, this]

/-- Witness for C3 at `pred = 101`, `cur = 100`, `t = 0.005`. -/
theorem direction_classification_witness :
    (0:ℚ) < 100 ∧ getPredictionDirection 101 100 (5/1000) = .up :=
  ⟨by norm_num, (direction_classification 101 100 (5/1000) (by norm_num)).2.2.2.2.2.1⟩

/-- C1 as stated is false: the code's `5d`-history writes use `ttl = 120000`,
yet a `get` 90000 ms after the write — before the supplied TTL has elapsed —
already misses, because `DataCache.get` compares the entry age against the
default TTL (60000), not against the TTL supplied at the write. -/
theorem cache_per_write_ttl_counterexample :
    (90000 : ℤ) - 0 < 120000 ∧
    (DataCache.get (DataCache.set DataCache.empty "k" (0:ℚ) (some 120000) 0)
        "k" 90000).1 = none := by
  constructor
  · norm_num
  · rfl

/-- C1 amended: for a write with an explicit positive TTL `t`, a `get` at age
`now - t0` returns the stored value iff the age is at most the default TTL
*and* strictly less than `t` (the scheduled deletion has not fired); once
either bound is passed the `get` misses and the entry is gone afterwards.
For a write without an explicit TTL the cutoff is the default TTL alone. -/
theorem cache_ttl_semantics (v : ℚ) (k : String) (t0 now ttl : ℤ)
    (httl : 0 < ttl) (hnow : t0 ≤ now) :
    ((DataCache.get (DataCache.set DataCache.empty k v (some ttl) t0) k now).1 =
      if now - t0 < ttl ∧ now - t0 ≤ defaultTTL then some v else none)
    ∧ ((DataCache.get (DataCache.set DataCache.empty k v none t0) k now).1 =
      if now - t0 ≤ defaultTTL then some v else none)
    ∧ ((ttl ≤ now - t0 ∨ defaultTTL < now - t0) →
      lookupEntry
        (DataCache.get (DataCache.set DataCache.empty k v (some ttl) t0) k now).2
        k = none) := by
  have hne : ttl ≠ 0 := ne_of_gt httl
  have hset : DataCache.set DataCache.empty k v (some ttl) t0 =
      ⟨[(k, ⟨v, t0⟩)], [(t0 + ttl, k)]⟩ := by
    simp [DataCache.set, DataCache.empty, hne]
  have hsetd : DataCache.set DataCache.empty k v none t0 =
      ⟨[(k, ⟨v, t0⟩)], []⟩ := by
    simp [DataCache.set, DataCache.empty]
  refine ⟨?_, ?_, ?_⟩
  · rw [hset]
    by_cases hfire : t0 + ttl ≤ now
    · have h1 : ¬ (now - t0 < ttl ∧ now - t0 ≤ defaultTTL) := by
        intro h; omega
      rw [if_neg h1]
      simp [DataCache.get, fireTimers, lookupEntry, hfire]
    · have hlt : now - t0 < ttl := by omega
      by_cases hexp : now - t0 > defaultTTL
      · have h1 : ¬ (now - t0 < ttl ∧ now - t0 ≤ defaultTTL) := by
          intro h; omega
        simp only [if_neg h1]
        simp [DataCache.get, fireTimers, lookupEntry, hfire, hexp]
      · have h1 : now - t0 < ttl ∧ now - t0 ≤ defaultTTL := by omega
        simp only [if_pos h1]
        simp [DataCache.get, fireTimers, lookupEntry, hfire, hexp]
  · rw [hsetd]
    by_cases hexp : now - t0 > defaultTTL
    · have h1 : ¬ (now - t0 ≤ defaultTTL) := by omega
      simp only [if_neg h1]
      simp [DataCache.get, fireTimers, lookupEntry, hexp]
    · have h1 : now - t0 ≤ defaultTTL := by omega
      simp only [if_pos h1]
      simp [DataCache.get, fireTimers, lookupEntry, hexp]
  · intro hmiss
    rw [hset]
    by_cases hfire : t0 + ttl ≤ now
    · simp [DataCache.get, fireTimers, lookupEntry, hfire]
    · have hexp : now - t0 > defaultTTL := by omega
      simp [DataCache.get, fireTimers, lookupEntry, deleteKey, hfire, hexp]

/-- Witness for the amended C1 at `ttl = 120000`, write time 0, read at
30000 (hit) — exercising both hypotheses. -/
theorem cache_ttl_semantics_witness :
    (0:ℤ) < 120000 ∧ (0:ℤ) ≤ 30000 ∧
    (DataCache.get (DataCache.set DataCache.empty "k" (1:ℚ) (some 120000) 0)
        "k" 30000).1 = some 1 := by
  refine ⟨by norm_num, by norm_num, ?_⟩
  have h := (cache_ttl_semantics (1:ℚ) "k" 0 30000 120000 (by norm_num)
    (by norm_num)).1
  rw [h]
  norm_num [defaultTTL]

/-! ## JavaScript number semantics

`StockPredictor.calculateConfidence` divides by the average of the two
component predictions without guarding against zero, so its behaviour on
degenerate inputs hinges on IEEE-754 special values: `0/0 = NaN`,
`x/0 = ±Infinity` for `x ≠ 0`, and `Math.max`/`Math.min` propagate `NaN`.
`JSNum` is the exact-rational model of a JavaScript number extended with
those special values (negative zero cannot arise in the expressions
modelled here, so it is identified with zero). -/

inductive JSNum where
  | num : ℚ → JSNum
  | posInf : JSNum
  | negInf : JSNum
  | nan : JSNum
  deriving Repr, DecidableEq

def jsNeg : JSNum → JSNum
  | .num a => .num (-a)
  | .posInf => .negInf
  | .negInf => .posInf
  | .nan => .nan

def jsAdd : JSNum → JSNum → JSNum
  | .nan, _ => .nan
  | _, .nan => .nan
  | .posInf, .negInf => .nan
  | .negInf, .posInf => .nan
  | .posInf, _ => .posInf
  | _, .posInf => .posInf
  | .negInf, _ => .negInf
  | _, .negInf => .negInf
  | .num a, .num b => .num (a + b)

def jsSub (x y : JSNum) : JSNum := jsAdd x (jsNeg y)

def jsMul : JSNum → JSNum → JSNum
  | .nan, _ => .nan
  | _, .nan => .nan
  | .num a, .num b => .num (a * b)
  | .posInf, .posInf => .posInf
  | .posInf, .negInf => .negInf
  | .negInf, .posInf => .negInf
  | .negInf, .negInf => .posInf
  | .posInf, .num b => if 0 < b then .posInf else if b < 0 then .negInf else .nan
  | .negInf, .num b => if 0 < b then .negInf else if b < 0 then .posInf else .nan
  | .num a, .posInf => if 0 < a then .posInf else if a < 0 then .negInf else .nan
  | .num a, .negInf => if 0 < a then .negInf else if a < 0 then .posInf else .nan

def jsDiv : JSNum → JSNum → JSNum
  | .nan, _ => .nan
  | _, .nan => .nan
  | .num a, .num b =>
      if b = 0 then (if a = 0 then .nan else if 0 < a then .posInf else .negInf)
      else .num (a / b)
  | .posInf, .num b => if b < 0 then .negInf else .posInf
  | .negInf, .num b => if b < 0 then .posInf else .negInf
  | .num _, .posInf => .num 0
  | .num _, .negInf => .num 0
  | .posInf, .posInf => .nan
  | .posInf, .negInf => .nan
  | .negInf, .posInf => .nan
  | .negInf, .negInf => .nan

def jsAbs : JSNum → JSNum
  | .num a => .num |a|
  | .posInf => .posInf
  | .negInf => .posInf
  | .nan => .nan

/-- Semantics of `Math.max` (NaN-propagating). -/
def jsMax : JSNum → JSNum → JSNum
  | .nan, _ => .nan
  | _, .nan => .nan
  | .posInf, _ => .posInf
  | _, .posInf => .posInf
  | .negInf, b => b
  | a, .negInf => a
  | .num a, .num b => .num (max a b)

/-- Semantics of `Math.min` (NaN-propagating). -/
def jsMin : JSNum → JSNum → JSNum
  | .nan, _ => .nan
  | _, .nan => .nan
  | .negInf, _ => .negInf
  | _, .negInf => .negInf
  | .posInf, b => b
  | a, .posInf => a
  | .num a, .num b => .num (min a b)

/-- Semantics of `Math.sign`. -/
def jsSign : JSNum → JSNum
  | .nan => .nan
  | .posInf => .num 1
  | .negInf => .num (-1)
  | .num a => .num (if 0 < a then 1 else if a < 0 then -1 else 0)

/-- Strict equality `===` (false whenever either side is `NaN`). -/
def jsStrictEq : JSNum → JSNum → Bool
  | .nan, _ => false
  | _, .nan => false
  | x, y => decide (x = y)

/-- Model of `StockPredictor.calculateConfidence` (`predictor.ts`), translated
operation by operation into `JSNum` arithmetic. -/
def calculateConfidence (lstmPred xgbPred currentPrice : JSNum) : JSNum :=
  let avgPrediction := jsDiv (jsAdd lstmPred xgbPred) (.num 2)
  let predictionDiff := jsAbs (jsSub lstmPred xgbPred)
  let relativeDiff := jsDiv predictionDiff avgPrediction
  let agreementScore := jsMax (.num 0) (jsSub (.num 1) (jsMul relativeDiff (.num 10)))
  let lstmDirection := jsSign (jsSub lstmPred currentPrice)
  let xgbDirection := jsSign (jsSub xgbPred currentPrice)
  let directionBonus : JSNum :=
    if jsStrictEq lstmDirection xgbDirection then .num (1/10) else .num (-(1/10))
  let confidence := jsMul (jsAdd agreementScore directionBonus) (.num 100)
  jsMax (.num 0) (jsMin (.num 100) confidence)

theorem jsSub_num (a b : ℚ) : jsSub (.num a) (.num b) = .num (a - b) := by
  simp [jsSub, jsNeg, jsAdd, sub_eq_add_neg]

theorem jsAbs_num (a : ℚ) : jsAbs (.num a) = .num |a| := rfl

theorem jsAdd_num (a b : ℚ) : jsAdd (.num a) (.num b) = .num (a + b) := rfl

theorem jsMul_num (a b : ℚ) : jsMul (.num a) (.num b) = .num (a * b) := rfl

theorem jsMax_num (a b : ℚ) : jsMax (.num a) (.num b) = .num (max a b) := rfl

theorem jsMin_num (a b : ℚ) : jsMin (.num a) (.num b) = .num (min a b) := rfl

theorem jsStrictEq_sign_self (x : ℚ) :
    jsStrictEq (jsSign (.num x)) (jsSign (.num x)) = true := by
  simp [jsSign, jsStrictEq]

end StockPredictor

namespace StockPredictor

/-- C2 as stated is false: at `sequencePrediction = tabularPrediction = 0`
(with current price 100) the confidence computation divides `0/0`, and the
resulting `NaN` propagates through `Math.max`/`Math.min`, so the returned
confidence is `NaN` — not a value in `[0,100]`. -/
theorem confidence_nan_counterexample :
    calculateConfidence (.num 0) (.num 0) (.num 100) = JSNum.nan := by
  simp only [calculateConfidence]
  norm_num [jsAdd, jsDiv, jsSub, jsNeg, jsAbs, jsMul, jsMax, jsMin, jsSign,
    jsStrictEq]

/-- C2 amended: whenever the two component predictions are not both zero,
the confidence is a rational clamped to `[0,100]`, and when they are equal
(hence automatically agree in direction with the current price) the
confidence is exactly 100; when both components are zero the result is
`NaN` (see the counterexample). -/
theorem confidence_clamped (a b p : ℚ) (h : ¬ (a = 0 ∧ b = 0)) :
    (∃ q : ℚ, calculateConfidence (.num a) (.num b) (.num p) = .num q ∧
      0 ≤ q ∧ q ≤ 100)
    ∧ (a = b → calculateConfidence (.num a) (.num b) (.num p) = .num 100) := by
  have hscore : ∃ s : ℚ, 0 ≤ s ∧
      jsMax (.num 0) (jsSub (.num 1)
        (jsMul (jsDiv (jsAbs (jsSub (.num a) (.num b)))
          (jsDiv (jsAdd (.num a) (.num b)) (.num 2))) (.num 10))) = .num s ∧
      (a = b → s = 1) := by
    have h2 : jsDiv (jsAdd (.num a) (.num b)) (.num 2) = .num ((a + b) / 2) := by
      norm_num [jsAdd, jsDiv]
    rw [h2, jsSub_num, jsAbs_num]
    by_cases hab : (a + b) / 2 = 0
    · have hb : b = -a := by
        have : a + b = 0 := by
          field_simp at hab
          linarith
        linarith
      have ha : a ≠ 0 := by
        rintro rfl
        exact h ⟨rfl, by rw [hb]; ring⟩
      have hd : 0 < |a - b| := by
        rw [hb, abs_pos]
        intro hz
        exact ha (by linarith)
      refine ⟨0, le_refl 0, ?_, ?_⟩
      · have hdiv : jsDiv (.num |a - b|) (.num ((a + b) / 2)) = .posInf := by
          rw [hab]
          simp [jsDiv, ne_of_gt hd, hd]
        rw [hdiv]
        norm_num [jsMul, jsSub, jsNeg, jsAdd, jsMax]
      · rintro rfl
        exact absurd (by linarith : a = 0) ha
    · have hdiv : jsDiv (.num |a - b|) (.num ((a + b) / 2)) =
          .num (|a - b| / ((a + b) / 2)) := by
        simp [jsDiv, hab]
      rw [hdiv, jsMul_num, jsSub_num, jsMax_num]
      refine ⟨max 0 (1 - |a - b| / ((a + b) / 2) * 10), le_max_left _ _, rfl, ?_⟩
      intro hEq
      subst hEq
      norm_num
  obtain ⟨s, hs0, hseq, hs1⟩ := hscore
  have hbonus : ∃ bq : ℚ,
      (if jsStrictEq (jsSign (jsSub (.num a) (.num p)))
          (jsSign (jsSub (.num b) (.num p)))
        then JSNum.num (1/10) else JSNum.num (-(1/10))) = .num bq ∧
      (bq = 1/10 ∨ bq = -(1/10)) ∧ (a = b → bq = 1/10) := by
    by_cases hc : jsStrictEq (jsSign (jsSub (.num a) (.num p)))
        (jsSign (jsSub (.num b) (.num p))) = true
    · exact ⟨1/10, by rw [if_pos hc], Or.inl rfl, fun _ => rfl⟩
    · refine ⟨-(1/10), by rw [if_neg hc], Or.inr rfl, ?_⟩
      rintro rfl
      exact absurd (by rw [jsSub_num]; exact jsStrictEq_sign_self _) hc
  obtain ⟨bq, hbeq, hbval, hb1⟩ := hbonus
  have heval : calculateConfidence (.num a) (.num b) (.num p) =
      .num (max 0 (min 100 ((s + bq) * 100))) := by
    simp only [calculateConfidence]
    rw [hseq, hbeq, jsAdd_num, jsMul_num, jsMin_num, jsMax_num]
  constructor
  · refine ⟨max 0 (min 100 ((s + bq) * 100)), heval, le_max_left _ _, ?_⟩
    exact max_le (by norm_num) (le_trans (min_le_left _ _) (le_refl _))
  · intro hEq
    rw [heval, hs1 hEq, hb1 hEq]
    norm_num

/-- Witness for the amended C2 at `seq = tab = 50`, `p = 40`. -/
theorem confidence_clamped_witness :
    ¬ ((50:ℚ) = 0 ∧ (50:ℚ) = 0) ∧
    calculateConfidence (.num 50) (.num 50) (.num 40) = .num 100 :=
  ⟨by norm_num,
    (confidence_clamped 50 50 40 (by norm_num)).2 rfl⟩

/-! ## The indicator engine of `StockDataAggregator` (`aggregator.ts`)

Historical bars carry an optional `adjClose`; the aggregator computes
indicators over `d.adjClose || d.close` (a falsy — absent or zero —
adjusted close falls back to the raw close).  `Math.sqrt` (used only
inside the Bollinger-band standard deviation) has no exact rational
counterpart, so it is abstracted as an explicit function parameter; no
claim below depends on its values. -/

structure HistoricalDataPoint where
  date : ℤ
  «open» : ℚ
  high : ℚ
  low : ℚ
  close : ℚ
  volume : ℚ
  adjClose : Option ℚ
  deriving Repr, DecidableEq

/-- Effective close `d.adjClose || d.close`. -/
def effClose (d : HistoricalDataPoint) : ℚ :=
  match d.adjClose with
  | some a => if a = 0 then d.close else a
  | none => d.close

/-- Simple moving average `calculateSMA`: mean of the trailing `period` values
(`data.slice(-period)`), 0 when there are fewer than `period` values. -/
def calculateSMA (data : List ℚ) (period : ℕ) : ℚ :=
  if data.length < period then 0
  else (data.drop (data.length - period)).sum / period

/-- Exponential moving average `calculateEMA`: seed with the SMA of the first `period` values, then
apply the EMA recurrence over the remaining values. -/
def calculateEMA (data : List ℚ) (period : ℕ) : ℚ :=
  if data.length < period then 0
  else
    (data.drop period).foldl
      (fun ema x => (x - ema) * (2 / ((period : ℚ) + 1)) + ema)
      (calculateSMA (data.take period) period)

/-- One step of the RSI gains/losses accumulation:
`if (change > 0) gains += change; else losses -= change`. -/
def rsiStep (gl : ℚ × ℚ) (change : ℚ) : ℚ × ℚ :=
  if 0 < change then (gl.1 + change, gl.2) else (gl.1, gl.2 - change)

def rsiGainsLosses (changes : List ℚ) : ℚ × ℚ :=
  changes.foldl rsiStep (0, 0)

/-- Relative strength index `calculateRSI`: 50 when fewer than `period+1` prices exist; otherwise
average gains/losses over the trailing `period` deltas, 100 when the
average loss is zero, else `100 - 100/(1+RS)`. -/
def calculateRSI (data : List ℚ) (period : ℕ) : ℚ :=
  if data.length < period + 1 then 50
  else
    let changes := List.zipWith (fun prev next => next - prev) data data.tail
    let recentChanges := changes.drop (changes.length - period)
    let gl := rsiGainsLosses recentChanges
    let avgGain := gl.1 / (period : ℚ)
    let avgLoss := gl.2 / (period : ℚ)
    if avgLoss = 0 then 100
    else 100 - 100 / (1 + avgGain / avgLoss)

structure MACDResult where
  macd : ℚ
  signal : ℚ
  histogram : ℚ
  deriving Repr, DecidableEq

/-- Model of `calculateMACD`: MACD line from full-series EMAs; signal line as the
9-period EMA of the MACD-value series reconstructed by running 12/26 EMAs
from index 26 onward (falling back to the MACD line when fewer than 9
values were produced). -/
def calculateMACD (data : List ℚ) : MACDResult :=
  let ema12 := calculateEMA data 12
  let ema26 := calculateEMA data 26
  let macdLine := ema12 - ema26
  let st := (data.drop 26).foldl
    (fun (st : ℚ × ℚ × List ℚ) x =>
      let e12 := (x - st.1) * (2 / 13) + st.1
      let e26 := (x - st.2.1) * (2 / 27) + st.2.1
      (e12, e26, st.2.2 ++ [e12 - e26]))
    (calculateSMA (data.take 12) 12, calculateSMA (data.take 26) 26, [])
  let macdValues := st.2.2
  let signalLine := if macdValues.length ≥ 9 then calculateEMA macdValues 9 else macdLine
  { macd := macdLine, signal := signalLine, histogram := macdLine - signalLine }

structure BollingerBands where
  upper : ℚ
  middle : ℚ
  lower : ℚ
  deriving Repr, DecidableEq

/-- Model of `calculateBollingerBands` with `Math.sqrt` abstracted as `sqrt`. -/
def calculateBollingerBands (sqrt : ℚ → ℚ) (data : List ℚ) (period : ℕ) :
    BollingerBands :=
  let sma := calculateSMA data period
  let slice := data.drop (data.length - period)
  let variance := ((slice.map (fun v => ((v - sma) ^ 2 : ℚ))).sum) / period
  let stdDev := sqrt variance
  { upper := sma + 2 * stdDev, middle := sma, lower := sma - 2 * stdDev }

structure TechnicalIndicators where
  rsi : ℚ
  macd : MACDResult
  bollingerBands : BollingerBands
  sma20 : ℚ
  sma50 : ℚ
  sma200 : ℚ
  ema12 : ℚ
  ema26 : ℚ
  deriving Repr, DecidableEq

/-- Model of `StockDataAggregator.calculateTechnicalIndicators`: `null` below 26
bars; otherwise the indicator record over `adjClose || close`, with sma50
and sma200 zeroed below 50/200 bars.  (The `console.warn` below 200 bars
has no observable effect and is not modelled.) -/
def calculateTechnicalIndicators (sqrt : ℚ → ℚ)
    (data : List HistoricalDataPoint) : Option TechnicalIndicators :=
  if data.length < 26 then none
  else
    let closes := data.map effClose
    some
      { rsi := calculateRSI closes 14
        macd := calculateMACD closes
        bollingerBands := calculateBollingerBands sqrt closes 20
        sma20 := calculateSMA closes 20
        sma50 := if data.length ≥ 50 then calculateSMA closes 50 else 0
        sma200 := if data.length ≥ 200 then calculateSMA closes 200 else 0
        ema12 := calculateEMA closes 12
        ema26 := calculateEMA closes 26 }

theorem rsiFold_nonneg (l : List ℚ) :
    ∀ g lo : ℚ, 0 ≤ g → 0 ≤ lo →
      0 ≤ (l.foldl rsiStep (g, lo)).1 ∧ 0 ≤ (l.foldl rsiStep (g, lo)).2 := by
  induction l with
  | nil => intro g lo hg hlo; exact ⟨hg, hlo⟩
  | cons c t ih =>
    intro g lo hg hlo
    simp only [List.foldl_cons, rsiStep]
    by_cases hc : 0 < c
    · rw [if_pos hc]
      exact ih (g + c) lo (by linarith) hlo
    · rw [if_neg hc]
      push_neg at hc
      exact ih g (lo - c) hg (by linarith)

theorem rsiGainsLosses_fst_nonneg (l : List ℚ) : 0 ≤ (rsiGainsLosses l).1 :=
  (rsiFold_nonneg l 0 0 le_rfl le_rfl).1

theorem rsiGainsLosses_snd_nonneg (l : List ℚ) : 0 ≤ (rsiGainsLosses l).2 :=
  (rsiFold_nonneg l 0 0 le_rfl le_rfl).2

theorem rsiFold_snd_of_pos (l : List ℚ) :
    ∀ g lo : ℚ, (∀ c ∈ l, 0 < c) → (l.foldl rsiStep (g, lo)).2 = lo := by
  induction l with
  | nil => intro g lo _; rfl
  | cons c t ih =>
    intro g lo hpos
    simp only [List.foldl_cons, rsiStep, if_pos (hpos c (List.mem_cons_self c t))]
    exact ih (g + c) lo (fun x hx => hpos x (List.mem_cons_of_mem c hx))

theorem rsiGainsLosses_snd_of_pos (l : List ℚ) (h : ∀ c ∈ l, 0 < c) :
    (rsiGainsLosses l).2 = 0 :=
  rsiFold_snd_of_pos l 0 0 h

/-- Consecutive deltas of a strictly increasing series are positive. -/
theorem changes_pos_of_chain (data : List ℚ) (h : data.Chain' (· < ·)) :
    ∀ c ∈ List.zipWith (fun prev next => next - prev) data data.tail, 0 < c := by
  induction data with
  | nil => intro c hc; simp at hc
  | cons a t ih =>
    cases t with
    | nil => intro c hc; simp at hc
    | cons b t' =>
      intro c hc
      rw [List.chain'_cons] at h
      simp only [List.tail_cons, List.zipWith_cons_cons, List.mem_cons] at hc
      rcases hc with rfl | hc
      · linarith [h.1]
      · exact ih h.2 c (by simpa using hc)

/-- The core RSI formula, for nonnegative average gains/losses, stays in
`[0,100]`. -/
theorem rsi_formula_range (g lo : ℚ) (period : ℕ) (hg : 0 ≤ g) (hlo : 0 ≤ lo) :
    0 ≤ (if lo / (period : ℚ) = 0 then (100:ℚ)
        else 100 - 100 / (1 + g / (period : ℚ) / (lo / (period : ℚ)))) ∧
    (if lo / (period : ℚ) = 0 then (100:ℚ)
        else 100 - 100 / (1 + g / (period : ℚ) / (lo / (period : ℚ)))) ≤ 100 := by
  split
  · norm_num
  · next hA =>
    have hlo' : 0 < lo / (period : ℚ) :=
      lt_of_le_of_ne (div_nonneg hlo (Nat.cast_nonneg _)) (Ne.symm hA)
    have hg' : 0 ≤ g / (period : ℚ) := div_nonneg hg (Nat.cast_nonneg _)
    have hrs : 0 ≤ g / (period : ℚ) / (lo / (period : ℚ)) :=
      div_nonneg hg' (le_of_lt hlo')
    have hpos : 0 < 100 / (1 + g / (period : ℚ) / (lo / (period : ℚ))) := by
      positivity
    have hle : 100 / (1 + g / (period : ℚ) / (lo / (period : ℚ))) ≤ 100 := by
      rw [div_le_iff (by linarith)]
      nlinarith
    constructor <;> linarith

/-- C5: the RSI is always within `[0,100]`; a series shorter than
`period+1` yields the neutral sentinel 50; a strictly increasing series of
length at least `period+1` yields exactly 100 (zero average loss). -/
theorem rsi_properties (data : List ℚ) (period : ℕ) :
    (0 ≤ calculateRSI data period ∧ calculateRSI data period ≤ 100)
    ∧ (data.length < period + 1 → calculateRSI data period = 50)
    ∧ (period + 1 ≤ data.length → data.Chain' (· < ·) →
        calculateRSI data period = 100) := by
  refine ⟨?_, ?_, ?_⟩
  · unfold calculateRSI
    split
    · norm_num
    · exact rsi_formula_range _ _ period (rsiGainsLosses_fst_nonneg _)
        (rsiGainsLosses_snd_nonneg _)
  · intro hshort
    unfold calculateRSI
    rw [if_pos hshort]
  · intro hlen hchain
    unfold calculateRSI
    rw [if_neg (not_lt.mpr hlen)]
    have hall : ∀ c ∈ (List.zipWith (fun prev next => next - prev) data
        data.tail).drop
        ((List.zipWith (fun prev next => next - prev) data data.tail).length
          - period), 0 < c :=
      fun c hc => changes_pos_of_chain data hchain c (List.drop_subset _ _ hc)
    have hz := rsiGainsLosses_snd_of_pos _ hall
    simp only [hz]
    norm_num

/-- Witness for C5: the strictly increasing series `1..15` with the
default period 14 has RSI exactly 100, and the short series `[1,2]` yields
the sentinel 50. -/
theorem rsi_properties_witness :
    (14 + 1 ≤ ([1, 2, 3, 4, 5, 6, 7, 8, 9, 10, 11, 12, 13, 14, 15] :
        List ℚ).length ∧
      calculateRSI [1, 2, 3, 4, 5, 6, 7, 8, 9, 10, 11, 12, 13, 14, 15] 14 = 100)
    ∧ (([1, 2] : List ℚ).length < 14 + 1 ∧ calculateRSI [1, 2] 14 = 50) := by
  constructor
  · refine ⟨by norm_num, ?_⟩
    exact (rsi_properties [1, 2, 3, 4, 5, 6, 7, 8, 9, 10, 11, 12, 13, 14, 15]
      14).2.2 (by norm_num)
      (by norm_num [List.chain'_cons])
  · refine ⟨by norm_num, ?_⟩
    exact (rsi_properties [1, 2] 14).2.1 (by norm_num)

/-- C4: the aggregator's indicator computation returns `null` for fewer
than 26 bars; for at least 26 bars it returns an indicator set, with
`sma50 = 0` below 50 bars and `sma200 = 0` below 200 bars. -/
theorem indicators_length_behaviour (sqrt : ℚ → ℚ)
    (data : List HistoricalDataPoint) :
    (data.length < 26 → calculateTechnicalIndicators sqrt data = none)
    ∧ (26 ≤ data.length →
        (calculateTechnicalIndicators sqrt data).isSome = true)
    ∧ (26 ≤ data.length → data.length < 50 →
        (calculateTechnicalIndicators sqrt data).map TechnicalIndicators.sma50
          = some 0)
    ∧ (26 ≤ data.length → data.length < 200 →
        (calculateTechnicalIndicators sqrt data).map TechnicalIndicators.sma200
          = some 0) := by
  refine ⟨?_, ?_, ?_, ?_⟩
  · intro hlt
    unfold calculateTechnicalIndicators
    rw [if_pos hlt]
  · intro hge
    unfold calculateTechnicalIndicators
    rw [if_neg (not_lt.mpr hge)]
    rfl
  · intro hge h50
    unfold calculateTechnicalIndicators
    rw [if_neg (not_lt.mpr hge)]
    simp [not_le.mpr h50]
  · intro hge h200
    unfold calculateTechnicalIndicators
    rw [if_neg (not_lt.mpr hge)]
    simp [not_le.mpr h200]

/-- Witness for C4: 30 identical bars (enough for MACD, not for SMA50)
give an indicator set with `sma50 = 0`; 10 bars give `null`. -/
theorem indicators_length_behaviour_witness :
    ((List.replicate 10 (⟨0, 1, 1, 1, 1, 1, none⟩ : HistoricalDataPoint)).length
        < 26 ∧
      calculateTechnicalIndicators id
        (List.replicate 10 ⟨0, 1, 1, 1, 1, 1, none⟩) = none)
    ∧ (26 ≤ (List.replicate 30
          (⟨0, 1, 1, 1, 1, 1, none⟩ : HistoricalDataPoint)).length ∧
      (calculateTechnicalIndicators id
          (List.replicate 30 ⟨0, 1, 1, 1, 1, 1, none⟩)).map
        TechnicalIndicators.sma50 = some 0) := by
  constructor
  · refine ⟨by norm_num, ?_⟩
    exact (indicators_length_behaviour id _).1 (by norm_num)
  · refine ⟨by norm_num, ?_⟩
    exact (indicators_length_behaviour id _).2.2.1 (by norm_num) (by norm_num)

/-! ## Feature scaling (`preprocessing.ts`)

`scaleFeatures` maps `row.map((value, i) => ...)`; the per-index read of
the scaler arrays is modelled with `List.getD _ _ 0` (the claims only
exercise in-bounds indices, where the default never applies). -/

structure ScalerParams where
  min_ : List ℚ
  scale_ : List ℚ
  data_min_ : List ℚ
  data_max_ : List ℚ
  data_range_ : List ℚ
  deriving Repr, DecidableEq

/-- Scaling `scaleFeatures`: per-feature min-max scaling,
`(value - data_min_[i]) / data_range_[i]`, and 0 where the range is 0. -/
def scaleFeatures (features : List (List ℚ)) (scalerParams : ScalerParams) :
    List (List ℚ) :=
  features.map (fun row =>
    (List.range row.length).map (fun i =>
      if scalerParams.data_range_.getD i 0 = 0 then 0
      else (row.getD i 0 - scalerParams.data_min_.getD i 0) /
        scalerParams.data_range_.getD i 0))

/-- Inverse scaling `inverseScalePrice`: `scaled * data_range_[priceIndex] + data_min_[priceIndex]`. -/
def inverseScalePrice (scaledPrice : ℚ) (scalerParams : ScalerParams)
    (priceIndex : ℕ := 3) : ℚ :=
  scaledPrice * scalerParams.data_range_.getD priceIndex 0 +
    scalerParams.data_min_.getD priceIndex 0

/-- C6: for an in-bounds feature index with nonzero range, inverse-scaling
the scaled value returns the original value exactly (the rational model
needs no floating-point tolerance); with zero range the scaled value is 0. -/
theorem scaling_roundtrip (p : ScalerParams) (row : List ℚ) (f : ℕ)
    (hf : f < row.length)
    (hlo : p.data_min_.getD f 0 ≤ row.getD f 0)
    (hhi : row.getD f 0 ≤ p.data_max_.getD f 0) :
    (p.data_range_.getD f 0 ≠ 0 →
      inverseScalePrice (((scaleFeatures [row] p).headI).getD f 0) p f =
        row.getD f 0)
    ∧ (p.data_range_.getD f 0 = 0 →
      ((scaleFeatures [row] p).headI).getD f 0 = 0) := by
  have hsv : ((scaleFeatures [row] p).headI).getD f 0 =
      (if p.data_range_.getD f 0 = 0 then 0
       else (row.getD f 0 - p.data_min_.getD f 0) / p.data_range_.getD f 0) := by
    simp [scaleFeatures, List.getD_eq_getElem?_getD, List.getElem?_map,
      List.getElem?_range, hf]
  constructor
  · intro hr
    rw [hsv, if_neg hr]
    unfold inverseScalePrice
    rw [div_mul_cancel₀ _ hr]
    ring
  · intro hr
    rw [hsv, if_pos hr]

/-- Witness for C6 at `row = [10, 20, 30, 40]`, `f = 3`,
`data_min_ = [0,0,0,20]`, `data_max_ = [1,1,1,60]`,
`data_range_ = [1,1,1,40]`. -/
theorem scaling_roundtrip_witness :
    (3 < ([10, 20, 30, 40] : List ℚ).length ∧
      (⟨[], [], [0, 0, 0, 20], [1, 1, 1, 60], [1, 1, 1, 40]⟩ :
        ScalerParams).data_min_.getD 3 0 ≤ ([10, 20, 30, 40] : List ℚ).getD 3 0 ∧
      ([10, 20, 30, 40] : List ℚ).getD 3 0 ≤
        (⟨[], [], [0, 0, 0, 20], [1, 1, 1, 60], [1, 1, 1, 40]⟩ :
          ScalerParams).data_max_.getD 3 0)
    ∧ inverseScalePrice (((scaleFeatures [[10, 20, 30, 40]]
        ⟨[], [], [0, 0, 0, 20], [1, 1, 1, 60], [1, 1, 1, 40]⟩).headI).getD 3 0)
        ⟨[], [], [0, 0, 0, 20], [1, 1, 1, 60], [1, 1, 1, 40]⟩ 3 =
      ([10, 20, 30, 40] : List ℚ).getD 3 0 := by
  refine ⟨⟨by norm_num, by norm_num [List.getD], by norm_num [List.getD]⟩, ?_⟩
  exact (scaling_roundtrip ⟨[], [], [0, 0, 0, 20], [1, 1, 1, 60], [1, 1, 1, 40]⟩
    [10, 20, 30, 40] 3 (by norm_num) (by norm_num [List.getD])
    (by norm_num [List.getD])).1 (by norm_num [List.getD])

/-! ## The tabular-model fallback of `StockPredictor` (`predictor.ts`) -/

/-- A JavaScript array read `features[i]` at a possibly negative or
out-of-range index (`undefined` becomes `none`). -/
def jsArrayGet (features : List ℚ) (i : ℤ) : Option ℚ :=
  if i < 0 then none else features.get? i.toNat

/-- Model of `StockPredictor.predictXGBoostFallback`: reads
`features[features.length - 5]`, `features[features.length - 4]` and
`features[5]` with JavaScript `|| 0` / `|| 50` falsy fallbacks (so a
*zero* RSI slot falls back to the neutral 50), forms the momentum/RSI
adjustment and blends `lstm * 0.9 + (currentPrice + adjustment) * 0.1`. -/
def predictXGBoostFallback (features : List ℚ)
    (lstmPrediction currentPrice : ℚ) : ℚ :=
  let momentum5 := (jsArrayGet features ((features.length : ℤ) - 5)).getD 0
  let momentum10 := (jsArrayGet features ((features.length : ℤ) - 4)).getD 0
  let rsi : ℚ :=
    match jsArrayGet features 5 with
    | some v => if v = 0 then 50 else v
    | none => 50
  let adjustment : ℚ :=
    if 0 < momentum5 ∧ 0 < momentum10 then currentPrice * (5 / 1000)
    else if momentum5 < 0 ∧ momentum10 < 0 then -currentPrice * (5 / 1000)
    else 0
  let adjustment2 : ℚ :=
    if 70 < rsi then adjustment - currentPrice * (3 / 1000)
    else if rsi < 30 then adjustment + currentPrice * (3 / 1000)
    else adjustment
  lstmPrediction * (9 / 10) + (currentPrice + adjustment2) * (1 / 10)

/-- The tabular-estimate formula exactly as claim C7 states it: the
momentum and RSI adjustments are computed from the feature slots read
directly (no falsy fallback for a zero RSI value), then
`0.9·seq + 0.1·(currentPrice + adjustment)`. -/
def claimedTabularEstimate (features : List ℚ)
    (sequencePrediction currentPrice : ℚ) : ℚ :=
  let momentum5 := features.getD (features.length - 5) 0
  let momentum10 := features.getD (features.length - 4) 0
  let rsi := features.getD 5 0
  let adjustment : ℚ :=
    (if 0 < momentum5 ∧ 0 < momentum10 then currentPrice * (5 / 1000)
     else if momentum5 < 0 ∧ momentum10 < 0 then -currentPrice * (5 / 1000)
     else 0)
    + (if 70 < rsi then -(currentPrice * (3 / 1000))
       else if rsi < 30 then currentPrice * (3 / 1000)
       else 0)
  (9 / 10) * sequencePrediction + (1 / 10) * (currentPrice + adjustment)

/-- C7 as stated is false at a flattened row whose RSI slot is 0: the code
coerces the falsy 0 to the neutral 50 (`features[5] || 50`) and applies no
RSI adjustment, while the claimed formula sees RSI 0 < 30 and adds 0.3%
of the current price. -/
theorem xgb_fallback_counterexample :
    predictXGBoostFallback [0, 0, 0, 0, 0, 0] 100 100 = 100 ∧
    claimedTabularEstimate [0, 0, 0, 0, 0, 0] 100 100 = 10003 / 100 := by
  constructor
  · have h5 : jsArrayGet [0, 0, 0, 0, 0, 0]
        ((([0, 0, 0, 0, 0, 0] : List ℚ).length : ℤ) - 5) = some 0 := rfl
    have h4 : jsArrayGet [0, 0, 0, 0, 0, 0]
        ((([0, 0, 0, 0, 0, 0] : List ℚ).length : ℤ) - 4) = some 0 := rfl
    have hr : jsArrayGet [0, 0, 0, 0, 0, 0] (5 : ℤ) = some 0 := rfl
    simp only [predictXGBoostFallback, h5, h4, hr, Option.getD_some]
    norm_num
  · norm_num [claimedTabularEstimate, List.getD]

/-- C7 amended: the fallback equals the claimed formula whenever the RSI
slot (`features[5]`) exists and is nonzero; a zero or missing RSI slot is
treated as the neutral 50, and missing momentum slots as 0. -/
theorem xgb_fallback_formula (features : List ℚ) (seq p : ℚ)
    (h5 : 5 < features.length) (hrsi : features.getD 5 0 ≠ 0) :
    predictXGBoostFallback features seq p =
      claimedTabularEstimate features seq p := by
  have hget : ∀ n : ℕ, n < features.length →
      features.get? n = some (features.getD n 0) := by
    intro n hn
    rw [List.get?_eq_getElem?, List.getElem?_eq_getElem hn,
      List.getD_eq_getElem _ _ hn]
  have hm5 : jsArrayGet features ((features.length : ℤ) - 5) =
      some (features.getD (features.length - 5) 0) := by
    unfold jsArrayGet
    rw [if_neg (by omega)]
    rw [show ((features.length : ℤ) - 5).toNat = features.length - 5 by omega]
    exact hget _ (by omega)
  have hm4 : jsArrayGet features ((features.length : ℤ) - 4) =
      some (features.getD (features.length - 4) 0) := by
    unfold jsArrayGet
    rw [if_neg (by omega)]
    rw [show ((features.length : ℤ) - 4).toNat = features.length - 4 by omega]
    exact hget _ (by omega)
  have hr : jsArrayGet features 5 = some (features.getD 5 0) := by
    unfold jsArrayGet
    rw [if_neg (by omega)]
    exact hget 5 h5
  unfold predictXGBoostFallback claimedTabularEstimate
  rw [hm5, hm4, hr]
  simp only [Option.getD_some, if_neg hrsi]
  split_ifs <;> ring

/-- Witness for the amended C7: a 6-slot row with RSI slot 20 (< 30). -/
theorem xgb_fallback_formula_witness :
    (5 < ([1, 1, 1, 1, 1, 20] : List ℚ).length ∧
      ([1, 1, 1, 1, 1, 20] : List ℚ).getD 5 0 ≠ 0) ∧
    predictXGBoostFallback [1, 1, 1, 1, 1, 20] 100 100 =
      claimedTabularEstimate [1, 1, 1, 1, 1, 20] 100 100 := by
  refine ⟨⟨by norm_num, by norm_num [List.getD]⟩, ?_⟩
  exact xgb_fallback_formula [1, 1, 1, 1, 1, 20] 100 100 (by norm_num)
    (by norm_num [List.getD])

/-! ## The model artifact loader (`model-loader.ts`)

`ModelLoader` keeps a per-symbol result cache and a per-symbol map of
in-flight loading promises.  The synchronous prefix of `loadModels`
(cache check → in-flight check → register promise) runs atomically on the
single-threaded event loop; a promise is identified by an abstract id, and
the four artifact slots are abstracted to opaque handles (the claims never
inspect artifact contents, only whether a slot is absent). -/

structure LoadedModel where
  lstmModel : Option ℕ
  scalerParams : Option ℕ
  ensembleConfig : Option ℕ
  modelConfig : Option ℕ
  deriving Repr, DecidableEq

structure ModelLoaderState where
  modelCache : List (String × LoadedModel)
  loadingPromises : List (String × ℕ)
  deriving Repr, DecidableEq

/-- Lookup `Map.get` on an association list. -/
def lookupAssoc {α : Type} (l : List (String × α)) (k : String) : Option α :=
  (l.find? (fun p => p.1 == k)).map Prod.snd

inductive LoadOutcome where
  | cached (m : LoadedModel)
  | awaitPromise (pid : ℕ)
  deriving Repr, DecidableEq

/-- The synchronous prefix of `ModelLoader.loadModels`: return the cached
model, else join the in-flight promise, else register a fresh promise and
start `loadModelsInternal`.  The third component counts the underlying
artifact fetches started by this call (0 or 1). -/
def loadModelsSync (s : ModelLoaderState) (symbol : String) (freshPid : ℕ) :
    LoadOutcome × ModelLoaderState × ℕ :=
  let upperSymbol := symbol.toUpper
  match lookupAssoc s.modelCache upperSymbol with
  | some m => (.cached m, s, 0)
  | none =>
    match lookupAssoc s.loadingPromises upperSymbol with
    | some pid => (.awaitPromise pid, s, 0)
    | none =>
      (.awaitPromise freshPid,
        { s with loadingPromises := (upperSymbol, freshPid) :: s.loadingPromises },
        1)

/-- Resolution of an in-flight load: the awaiting `loadModels` body stores
the result in `modelCache` and, in its `finally`, removes the loading
promise.  `Promise.allSettled` never rejects, so the load always resolves
— possibly with every artifact slot `null`. -/
def resolveLoad (s : ModelLoaderState) (symbol : String) (m : LoadedModel) :
    ModelLoaderState :=
  let upperSymbol := symbol.toUpper
  { modelCache :=
      (upperSymbol, m) :: s.modelCache.filter (fun p => p.1 != upperSymbol),
    loadingPromises := s.loadingPromises.filter (fun p => p.1 != upperSymbol) }

/-- Model of `ModelLoader.clearCache(symbol)` (single-symbol form; the tensor
`dispose()` call has no observable effect on the loader state). -/
def clearCache (s : ModelLoaderState) (symbol : String) : ModelLoaderState :=
  { s with modelCache := s.modelCache.filter (fun p => p.1 != symbol.toUpper) }

theorem lookupAssoc_cons_self {α : Type} (l : List (String × α)) (k : String)
    (v : α) : lookupAssoc ((k, v) :: l) k = some v := by
  simp [lookupAssoc, List.find?_cons]

theorem lookupAssoc_filter_ne {α : Type} (l : List (String × α)) (k : String) :
    lookupAssoc (l.filter (fun p => p.1 != k)) k = none := by
  unfold lookupAssoc
  rw [Option.map_eq_none']
  rw [List.find?_eq_none]
  intro p hp
  have h2 := (List.mem_filter.mp hp).2
  simp only [bne_iff_ne, ne_eq] at h2
  simp [h2]

end StockPredictor

namespace StockPredictor

/-- C8: two `loadModels` calls for the same symbol, the second arriving
while the first load is still in flight, both end up awaiting the *same*
promise (hence receive the same loaded-model object when it resolves),
and exactly one underlying artifact fetch is started between them. -/
theorem concurrent_load_dedup (s : ModelLoaderState) (symbol : String)
    (pid1 pid2 : ℕ)
    (hc : lookupAssoc s.modelCache symbol.toUpper = none)
    (hl : lookupAssoc s.loadingPromises symbol.toUpper = none) :
    (loadModelsSync s symbol pid1).1 = .awaitPromise pid1
    ∧ (loadModelsSync (loadModelsSync s symbol pid1).2.1 symbol pid2).1 =
        .awaitPromise pid1
    ∧ (loadModelsSync s symbol pid1).2.2 +
        (loadModelsSync (loadModelsSync s symbol pid1).2.1 symbol pid2).2.2 = 1 := by
  have h1 : loadModelsSync s symbol pid1 =
      (.awaitPromise pid1,
        { s with loadingPromises :=
            (symbol.toUpper, pid1) :: s.loadingPromises }, 1) := by
    simp [loadModelsSync, hc, hl]
  have h2 : loadModelsSync
      ({ s with loadingPromises := (symbol.toUpper, pid1) :: s.loadingPromises }
        : ModelLoaderState) symbol pid2 =
      (.awaitPromise pid1,
        { s with loadingPromises :=
            (symbol.toUpper, pid1) :: s.loadingPromises }, 0) := by
    simp [loadModelsSync, hc, lookupAssoc_cons_self]
  rw [h1]
  simp only [h2]
  simp

/-- Witness for C8 from the empty loader state. -/
theorem concurrent_load_dedup_witness :
    lookupAssoc (ModelLoaderState.mk [] []).modelCache ("aapl".toUpper) = none ∧
    (loadModelsSync (ModelLoaderState.mk [] []) "aapl" 7).1 =
      .awaitPromise 7 := by
  refine ⟨rfl, ?_⟩
  exact (concurrent_load_dedup ⟨[], []⟩ "aapl" 7 8 rfl rfl).1

/-- C9: once a load for a symbol resolves — even with every artifact slot
`null` — the result is cached: every later `loadModels` call returns the
cached object and starts no fetch, until `clearCache(symbol)`, after
which the next call fetches again. -/
theorem load_cached_until_clear (s : ModelLoaderState) (symbol : String)
    (m : LoadedModel) (pid : ℕ) :
    loadModelsSync (resolveLoad s symbol m) symbol pid =
      (.cached m, resolveLoad s symbol m, 0)
    ∧ (m = ⟨none, none, none, none⟩ →
        (loadModelsSync (resolveLoad s symbol m) symbol pid).1 =
          .cached ⟨none, none, none, none⟩)
    ∧ (loadModelsSync (clearCache (resolveLoad s symbol m) symbol) symbol
        pid).2.2 = 1 := by
  have h1 : loadModelsSync (resolveLoad s symbol m) symbol pid =
      (.cached m, resolveLoad s symbol m, 0) := by
    simp [loadModelsSync, resolveLoad, lookupAssoc_cons_self]
  refine ⟨h1, ?_, ?_⟩
  · rintro rfl
    rw [h1]
  · have hcc : lookupAssoc
        (clearCache (resolveLoad s symbol m) symbol).modelCache
        symbol.toUpper = none := by
      simp only [clearCache]
      exact lookupAssoc_filter_ne _ _
    have hlp : lookupAssoc
        (clearCache (resolveLoad s symbol m) symbol).loadingPromises
        symbol.toUpper = none := by
      simp only [clearCache, resolveLoad]
      exact lookupAssoc_filter_ne _ _
    simp [loadModelsSync, hcc, hlp]

/-- Witness for C9 with the all-`null` model from the empty state. -/
theorem load_cached_until_clear_witness :
    (loadModelsSync (resolveLoad ⟨[], []⟩ "aapl" ⟨none, none, none, none⟩)
        "aapl" 3).1 = .cached ⟨none, none, none, none⟩ :=
  (load_cached_until_clear ⟨[], []⟩ "aapl" ⟨none, none, none, none⟩ 3).2.1 rfl

/-! ## The `StockDataAggregator` operations (`aggregator.ts`)

The aggregator shares one `DataCache` whose values are quotes, historical
bar arrays or search-result arrays, keyed under the disjoint namespaces
`quote:`, `historical:` and `search:`.  The source clients' responses are
supplied as oracle parameters (the network is outside the model); each
operation returns its result, the updated cache, and whether the source
clients were queried.  The unchecked `get<T>` casts of the TypeScript code
are made explicit by the `as*` projections; they are exercised only under
the per-key shape invariants below, which aggregator-reachable caches
satisfy.  Quote and search-result records are reduced to their identifying
field — no claim inspects the remaining fields. -/

structure StockQuote where
  symbol : String
  price : ℚ
  deriving Repr, DecidableEq

structure StockSearchResult where
  symbol : String
  deriving Repr, DecidableEq

inductive AggCacheVal where
  | quote (q : StockQuote)
  | hist (l : List HistoricalDataPoint)
  | search (l : List StockSearchResult)
  deriving Repr, DecidableEq

def asQuote : AggCacheVal → Option StockQuote
  | .quote q => some q
  | _ => none

def asHist : AggCacheVal → List HistoricalDataPoint
  | .hist l => l
  | _ => []

def asSearch : AggCacheVal → List StockSearchResult
  | .search l => l
  | _ => []

inductive Period where
  | p1d
  | p5d
  | p1mo
  | p3mo
  | p6mo
  | p1y
  | p2y
  | p5y
  deriving Repr, DecidableEq

def Period.str : Period → String
  | .p1d => "1d"
  | .p5d => "5d"
  | .p1mo => "1mo"
  | .p3mo => "3mo"
  | .p6mo => "6mo"
  | .p1y => "1y"
  | .p2y => "2y"
  | .p5y => "5y"

/-- The fixed range→day-count table of `getHistoricalData`. -/
def periodDays : Period → ℤ
  | .p1d => 1
  | .p5d => 5
  | .p1mo => 30
  | .p3mo => 90
  | .p6mo => 180
  | .p1y => 365
  | .p2y => 730
  | .p5y => 1825

/-- Model of `StockDataAggregator.getQuote`: cache first; Yahoo, then Alpha Vantage
as fallback; cache only a non-null quote (no explicit TTL). -/
def aggGetQuote (c : DataCache AggCacheVal) (symbol : String)
    (yahooQuote alphaQuote : Option StockQuote) (now : ℤ) :
    Option StockQuote × DataCache AggCacheVal × Bool :=
  let cacheKey := "quote:" ++ symbol
  let cached := DataCache.get c cacheKey now
  match cached.1 with
  | some v => (asQuote v, cached.2, false)
  | none =>
    match yahooQuote.orElse (fun _ => alphaQuote) with
    | some q => (some q, DataCache.set cached.2 cacheKey (.quote q) none now, true)
    | none => (none, cached.2, true)

/-- Model of `StockDataAggregator.getHistoricalData`: cache first; Yahoo, then (for
non-intraday periods) Alpha Vantage filtered to `now - periodDays` as
fallback; cache only a nonempty result, with a period-dependent TTL. -/
def aggGetHistoricalData (c : DataCache AggCacheVal) (symbol : String)
    (period : Period) (yahooData alphaData : List HistoricalDataPoint)
    (now : ℤ) : List HistoricalDataPoint × DataCache AggCacheVal × Bool :=
  let cacheKey := "historical:" ++ symbol ++ ":" ++ period.str
  let cached := DataCache.get c cacheKey now
  match cached.1 with
  | some v => (asHist v, cached.2, false)
  | none =>
    let data :=
      if yahooData.length = 0 ∧ period ≠ .p1d ∧ period ≠ .p5d then
        alphaData.filter
          (fun d => decide (now - periodDays period * 86400000 ≤ d.date))
      else yahooData
    if 0 < data.length then
      let cacheTTL : ℤ :=
        if period = .p1d then 60000 else if period = .p5d then 120000 else 300000
      (data, DataCache.set cached.2 cacheKey (.hist data) (some cacheTTL) now,
        true)
    else (data, cached.2, true)

/-- Model of `StockDataAggregator.searchStocks`: empty queries short-circuit to
`[]`; cache first; cache only a nonempty result, with a 600 s TTL. -/
def aggSearchStocks (c : DataCache AggCacheVal) (query : String)
    (yahooResults : List StockSearchResult) (now : ℤ) :
    List StockSearchResult × DataCache AggCacheVal × Bool :=
  if query.length < 1 then ([], c, false)
  else
    let cacheKey := "search:" ++ query.toLower
    let cached := DataCache.get c cacheKey now
    match cached.1 with
    | some v => (asSearch v, cached.2, false)
    | none =>
      if 0 < yahooResults.length then
        (yahooResults,
          DataCache.set cached.2 cacheKey (.search yahooResults) (some 600000)
            now, true)
      else (yahooResults, cached.2, true)

/-- Shape invariant for a `quote:` cache key: every entry stored under it
holds a quote value. -/
def QuoteKeyWF (c : DataCache AggCacheVal) (key : String) : Prop :=
  ∀ p ∈ c.entries, p.1 = key → ∃ q, p.2.data = AggCacheVal.quote q

/-- Shape invariant for a `historical:` cache key: every entry stored
under it holds a nonempty bar array. -/
def HistKeyWF (c : DataCache AggCacheVal) (key : String) : Prop :=
  ∀ p ∈ c.entries, p.1 = key →
    ∃ l, p.2.data = AggCacheVal.hist l ∧ l ≠ []

/-- Shape invariant for a `search:` cache key: every entry stored under it
holds a nonempty search-result array. -/
def SearchKeyWF (c : DataCache AggCacheVal) (key : String) : Prop :=
  ∀ p ∈ c.entries, p.1 = key →
    ∃ l, p.2.data = AggCacheVal.search l ∧ l ≠ []

theorem lookupEntry_none_iff {α : Type} (c : DataCache α) (k : String) :
    lookupEntry c k = none ↔ ∀ p ∈ c.entries, p.1 ≠ k := by
  unfold lookupEntry
  rw [Option.map_eq_none', List.find?_eq_none]
  simp

theorem fireTimers_entries {α : Type} (c : DataCache α) (now : ℤ) :
    (fireTimers c now).entries = c.entries.filter
      (fun p => !(((c.timers.filter (fun t => t.1 ≤ now)).map
        Prod.snd).contains p.1)) := rfl

theorem lookupEntry_fireTimers_none {α : Type} (c : DataCache α) (k : String)
    (now : ℤ) (h : lookupEntry c k = none) :
    lookupEntry (fireTimers c now) k = none := by
  rw [lookupEntry_none_iff] at h ⊢
  intro p hp
  rw [fireTimers_entries] at hp
  exact h p (List.mem_of_mem_filter hp)

theorem lookupEntry_deleteKey_self {α : Type} (c : DataCache α) (k : String) :
    lookupEntry (deleteKey c k) k = none := by
  rw [lookupEntry_none_iff]
  intro p hp
  have h2 := (List.mem_filter.mp hp).2
  simpa [bne_iff_ne] using h2

/-- A missing `get` leaves the key absent in the returned cache. -/
theorem get_none_lookup {α : Type} (c : DataCache α) (k : String) (now : ℤ)
    (h : (DataCache.get c k now).1 = none) :
    lookupEntry (DataCache.get c k now).2 k = none := by
  simp only [DataCache.get] at h ⊢
  cases hlk : lookupEntry (fireTimers c now) k with
  | none => simp [hlk]
  | some e =>
    by_cases hexp : now - e.timestamp > defaultTTL
    · simpa [hexp] using lookupEntry_deleteKey_self (fireTimers c now) k
    · rw [hlk] at h
      simp [hexp] at h

/-- A `get` hit returns data stored in the original cache under the key. -/
theorem get_some_mem {α : Type} (c : DataCache α) (k : String) (now : ℤ)
    (v : α) (h : (DataCache.get c k now).1 = some v) :
    ∃ p ∈ c.entries, p.1 = k ∧ p.2.data = v := by
  simp only [DataCache.get] at h
  cases hlk : lookupEntry (fireTimers c now) k with
  | none => rw [hlk] at h; simp at h
  | some e =>
    rw [hlk] at h
    by_cases hexp : now - e.timestamp > defaultTTL
    · simp [hexp] at h
    · simp only [if_neg hexp] at h
      obtain ⟨pr, hfind, hsnd⟩ := Option.map_eq_some'.mp hlk
      have hmem : pr ∈ (fireTimers c now).entries :=
        List.mem_of_find?_eq_some hfind
      have hkey := List.find?_some hfind
      rw [fireTimers_entries] at hmem
      refine ⟨pr, List.mem_of_mem_filter hmem, by simpa using hkey, ?_⟩
      rw [hsnd]
      simpa using h

/-- A `get` on a cache where the key is absent misses. -/
theorem get_fst_none_of_lookup_none {α : Type} (c : DataCache α) (k : String)
    (now : ℤ) (h : lookupEntry c k = none) :
    (DataCache.get c k now).1 = none := by
  simp only [DataCache.get]
  rw [lookupEntry_fireTimers_none c k now h]

theorem aggGetQuote_none_no_store (c : DataCache AggCacheVal) (symbol : String)
    (yq aq : Option StockQuote) (now : ℤ)
    (h : (aggGetQuote c symbol yq aq now).1 = none) :
    (aggGetQuote c symbol yq aq now).2.1 =
      (DataCache.get c ("quote:" ++ symbol) now).2 := by
  simp only [aggGetQuote] at h ⊢
  cases hg : (DataCache.get c ("quote:" ++ symbol) now).1 with
  | some v => simp
  | none =>
    rw [hg] at h
    cases ho : yq.orElse (fun _ => aq) with
    | some q => rw [ho] at h; simp at h
    | none => rfl

theorem aggGetQuote_none_key_absent (c : DataCache AggCacheVal)
    (symbol : String) (yq aq : Option StockQuote) (now : ℤ)
    (hWF : QuoteKeyWF c ("quote:" ++ symbol))
    (h : (aggGetQuote c symbol yq aq now).1 = none) :
    lookupEntry (aggGetQuote c symbol yq aq now).2.1 ("quote:" ++ symbol) =
      none := by
  simp only [aggGetQuote] at h ⊢
  cases hg : (DataCache.get c ("quote:" ++ symbol) now).1 with
  | some v =>
    exfalso
    obtain ⟨p, hp, hpk, hpd⟩ := get_some_mem c _ now v hg
    obtain ⟨q, hq⟩ := hWF p hp hpk
    rw [hpd] at hq
    rw [hg, hq] at h
    simp [asQuote] at h
  | none =>
    rw [hg] at h
    cases ho : yq.orElse (fun _ => aq) with
    | some q => rw [ho] at h; simp at h
    | none =>
      simpa using get_none_lookup c ("quote:" ++ symbol) now hg

/-- On a cache with the key absent, `getQuote` queries the sources. -/
theorem aggGetQuote_queries_of_absent (c : DataCache AggCacheVal)
    (symbol : String) (yq aq : Option StockQuote) (now : ℤ)
    (h : lookupEntry c ("quote:" ++ symbol) = none) :
    (aggGetQuote c symbol yq aq now).2.2 = true := by
  have h2 := get_fst_none_of_lookup_none c ("quote:" ++ symbol) now h
  simp only [aggGetQuote, h2]
  cases ho : yq.orElse (fun _ => aq) with
  | some q => rfl
  | none => rfl

theorem aggGetQuote_requery (c : DataCache AggCacheVal) (symbol : String)
    (yq aq yq2 aq2 : Option StockQuote) (now now2 : ℤ)
    (hWF : QuoteKeyWF c ("quote:" ++ symbol))
    (h : (aggGetQuote c symbol yq aq now).1 = none) :
    (aggGetQuote (aggGetQuote c symbol yq aq now).2.1 symbol yq2 aq2
      now2).2.2 = true :=
  aggGetQuote_queries_of_absent _ symbol yq2 aq2 now2
    (aggGetQuote_none_key_absent c symbol yq aq now hWF h)

/-- The `if nonempty then cache-and-return else return` tail shared by the
aggregator's history and search paths: an empty result skips the write. -/
theorem cacheWriteIf_no_store {β : Type} (c1 : DataCache AggCacheVal)
    (key : String) (D : List β) (v : AggCacheVal) (ttl now : ℤ)
    (h : (if 0 < D.length
        then (D, DataCache.set c1 key v (some ttl) now, true)
        else (D, c1, true)).1 = []) :
    (if 0 < D.length
        then (D, DataCache.set c1 key v (some ttl) now, true)
        else (D, c1, true)).2.1 = c1 := by
  split at h
  · next hlen =>
    exfalso
    have hD : D = [] := h
    rw [hD] at hlen
    simp at hlen
  · next hlen => rw [if_neg hlen]

theorem cacheWriteIf_key_absent {β : Type} (c1 : DataCache AggCacheVal)
    (key : String) (D : List β) (v : AggCacheVal) (ttl now : ℤ)
    (hnone : lookupEntry c1 key = none)
    (h : (if 0 < D.length
        then (D, DataCache.set c1 key v (some ttl) now, true)
        else (D, c1, true)).1 = []) :
    lookupEntry ((if 0 < D.length
        then (D, DataCache.set c1 key v (some ttl) now, true)
        else (D, c1, true)).2.1) key = none := by
  split at h
  · next hlen =>
    exfalso
    have hD : D = [] := h
    rw [hD] at hlen
    simp at hlen
  · next hlen =>
    rw [if_neg hlen]
    exact hnone

theorem cacheWriteIf_queried {β : Type} (c1 : DataCache AggCacheVal)
    (key : String) (D : List β) (v : AggCacheVal) (ttl now : ℤ) :
    (if 0 < D.length
        then (D, DataCache.set c1 key v (some ttl) now, true)
        else (D, c1, true)).2.2 = true := by
  split
  · rfl
  · rfl

theorem aggGetHistoricalData_empty_no_store (c : DataCache AggCacheVal)
    (symbol : String) (period : Period)
    (yd ad : List HistoricalDataPoint) (now : ℤ)
    (h : (aggGetHistoricalData c symbol period yd ad now).1 = []) :
    (aggGetHistoricalData c symbol period yd ad now).2.1 =
      (DataCache.get c ("historical:" ++ symbol ++ ":" ++ period.str)
        now).2 := by
  simp only [aggGetHistoricalData] at h ⊢
  cases hg : (DataCache.get c ("historical:" ++ symbol ++ ":" ++ period.str)
      now).1 with
  | some v => rfl
  | none =>
    rw [hg] at h
    exact cacheWriteIf_no_store _ _ _ _ _ now h

theorem aggGetHistoricalData_empty_key_absent (c : DataCache AggCacheVal)
    (symbol : String) (period : Period)
    (yd ad : List HistoricalDataPoint) (now : ℤ)
    (hWF : HistKeyWF c ("historical:" ++ symbol ++ ":" ++ period.str))
    (h : (aggGetHistoricalData c symbol period yd ad now).1 = []) :
    lookupEntry (aggGetHistoricalData c symbol period yd ad now).2.1
      ("historical:" ++ symbol ++ ":" ++ period.str) = none := by
  simp only [aggGetHistoricalData] at h ⊢
  cases hg : (DataCache.get c ("historical:" ++ symbol ++ ":" ++ period.str)
      now).1 with
  | some v =>
    exfalso
    obtain ⟨p, hp, hpk, hpd⟩ := get_some_mem c _ now v hg
    obtain ⟨l, hq, hl⟩ := hWF p hp hpk
    rw [hpd] at hq
    rw [hg, hq] at h
    simp only [asHist] at h
    exact hl h
  | none =>
    rw [hg] at h
    exact cacheWriteIf_key_absent _ _ _ _ _ now
      (get_none_lookup c ("historical:" ++ symbol ++ ":" ++ period.str) now hg)
      h

/-- On a cache with the key absent, `getHistoricalData` queries the
sources. -/
theorem aggGetHistoricalData_queries_of_absent (c : DataCache AggCacheVal)
    (symbol : String) (period : Period)
    (yd ad : List HistoricalDataPoint) (now : ℤ)
    (h : lookupEntry c ("historical:" ++ symbol ++ ":" ++ period.str) = none) :
    (aggGetHistoricalData c symbol period yd ad now).2.2 = true := by
  have h2 := get_fst_none_of_lookup_none c
    ("historical:" ++ symbol ++ ":" ++ period.str) now h
  simp only [aggGetHistoricalData, h2]
  exact cacheWriteIf_queried _ _ _ _ _ now

theorem aggGetHistoricalData_requery (c : DataCache AggCacheVal)
    (symbol : String) (period : Period)
    (yd ad yd2 ad2 : List HistoricalDataPoint) (now now2 : ℤ)
    (hWF : HistKeyWF c ("historical:" ++ symbol ++ ":" ++ period.str))
    (h : (aggGetHistoricalData c symbol period yd ad now).1 = []) :
    (aggGetHistoricalData
      (aggGetHistoricalData c symbol period yd ad now).2.1 symbol period
      yd2 ad2 now2).2.2 = true :=
  aggGetHistoricalData_queries_of_absent _ symbol period yd2 ad2 now2
    (aggGetHistoricalData_empty_key_absent c symbol period yd ad now hWF h)

theorem aggSearchStocks_empty_no_store (c : DataCache AggCacheVal)
    (query : String) (ys : List StockSearchResult) (now : ℤ)
    (hq : ¬ query.length < 1)
    (h : (aggSearchStocks c query ys now).1 = []) :
    (aggSearchStocks c query ys now).2.1 =
      (DataCache.get c ("search:" ++ query.toLower) now).2 := by
  simp only [aggSearchStocks, if_neg hq] at h ⊢
  cases hg : (DataCache.get c ("search:" ++ query.toLower) now).1 with
  | some v => rfl
  | none =>
    rw [hg] at h
    exact cacheWriteIf_no_store _ _ _ _ _ now h

theorem aggSearchStocks_empty_key_absent (c : DataCache AggCacheVal)
    (query : String) (ys : List StockSearchResult) (now : ℤ)
    (hq : ¬ query.length < 1)
    (hWF : SearchKeyWF c ("search:" ++ query.toLower))
    (h : (aggSearchStocks c query ys now).1 = []) :
    lookupEntry (aggSearchStocks c query ys now).2.1
      ("search:" ++ query.toLower) = none := by
  simp only [aggSearchStocks, if_neg hq] at h ⊢
  cases hg : (DataCache.get c ("search:" ++ query.toLower) now).1 with
  | some v =>
    exfalso
    obtain ⟨p, hp, hpk, hpd⟩ := get_some_mem c _ now v hg
    obtain ⟨l, hv, hl⟩ := hWF p hp hpk
    rw [hpd] at hv
    rw [hg, hv] at h
    simp only [asSearch] at h
    exact hl h
  | none =>
    rw [hg] at h
    exact cacheWriteIf_key_absent _ _ _ _ _ now
      (get_none_lookup c ("search:" ++ query.toLower) now hg) h

/-- On a cache with the key absent, `searchStocks` (with a nonempty query)
queries the sources. -/
theorem aggSearchStocks_queries_of_absent (c : DataCache AggCacheVal)
    (query : String) (ys : List StockSearchResult) (now : ℤ)
    (hq : ¬ query.length < 1)
    (h : lookupEntry c ("search:" ++ query.toLower) = none) :
    (aggSearchStocks c query ys now).2.2 = true := by
  have h2 := get_fst_none_of_lookup_none c ("search:" ++ query.toLower) now h
  simp only [aggSearchStocks, if_neg hq, h2]
  exact cacheWriteIf_queried _ _ _ _ _ now

theorem aggSearchStocks_requery (c : DataCache AggCacheVal) (query : String)
    (ys ys2 : List StockSearchResult) (now now2 : ℤ)
    (hq : ¬ query.length < 1)
    (hWF : SearchKeyWF c ("search:" ++ query.toLower))
    (h : (aggSearchStocks c query ys now).1 = []) :
    (aggSearchStocks (aggSearchStocks c query ys now).2.1 query ys2
      now2).2.2 = true :=
  aggSearchStocks_queries_of_absent _ query ys2 now2 hq
    (aggSearchStocks_empty_key_absent c query ys now hq hWF h)

/-- C10: the aggregator never stores an absent or empty result.  After a
`getQuote` returning `null`, a `getHistoricalData` returning `[]`, or a
`searchStocks` returning `[]`, nothing was written (the returned cache is
exactly the one left by the cache lookup), and — on a cache satisfying
the key's shape invariant — repeating the call queries the source clients
again instead of serving the failure from the cache.  An empty search
query short-circuits without touching the cache at all. -/
theorem aggregator_never_caches_empty (c : DataCache AggCacheVal)
    (symbol query : String) (period : Period)
    (yq aq yq2 aq2 : Option StockQuote)
    (yd ad yd2 ad2 : List HistoricalDataPoint)
    (ys ys2 : List StockSearchResult) (now now2 : ℤ) :
    ((aggGetQuote c symbol yq aq now).1 = none →
      (aggGetQuote c symbol yq aq now).2.1 =
        (DataCache.get c ("quote:" ++ symbol) now).2)
    ∧ (QuoteKeyWF c ("quote:" ++ symbol) →
      (aggGetQuote c symbol yq aq now).1 = none →
      (aggGetQuote (aggGetQuote c symbol yq aq now).2.1 symbol yq2 aq2
        now2).2.2 = true)
    ∧ ((aggGetHistoricalData c symbol period yd ad now).1 = [] →
      (aggGetHistoricalData c symbol period yd ad now).2.1 =
        (DataCache.get c ("historical:" ++ symbol ++ ":" ++ period.str) now).2)
    ∧ (HistKeyWF c ("historical:" ++ symbol ++ ":" ++ period.str) →
      (aggGetHistoricalData c symbol period yd ad now).1 = [] →
      (aggGetHistoricalData
        (aggGetHistoricalData c symbol period yd ad now).2.1 symbol period
        yd2 ad2 now2).2.2 = true)
    ∧ (¬ query.length < 1 →
      (aggSearchStocks c query ys now).1 = [] →
      (aggSearchStocks c query ys now).2.1 =
        (DataCache.get c ("search:" ++ query.toLower) now).2)
    ∧ (¬ query.length < 1 → SearchKeyWF c ("search:" ++ query.toLower) →
      (aggSearchStocks c query ys now).1 = [] →
      (aggSearchStocks (aggSearchStocks c query ys now).2.1 query ys2
        now2).2.2 = true)
    ∧ (query.length < 1 → aggSearchStocks c query ys now = ([], c, false)) :=
  ⟨fun h => aggGetQuote_none_no_store c symbol yq aq now h,
    fun hWF h => aggGetQuote_requery c symbol yq aq yq2 aq2 now now2 hWF h,
    fun h => aggGetHistoricalData_empty_no_store c symbol period yd ad now h,
    fun hWF h => aggGetHistoricalData_requery c symbol period yd ad yd2 ad2
      now now2 hWF h,
    fun hq h => aggSearchStocks_empty_no_store c query ys now hq h,
    fun hq hWF h => aggSearchStocks_requery c query ys ys2 now now2 hq hWF h,
    fun hlt => by simp only [aggSearchStocks, if_pos hlt]⟩

/-- Witness for C10: from the empty cache, a quote fetch where both
sources fail returns `null`, caches nothing, and the repeated call
queries the sources again. -/
theorem aggregator_never_caches_empty_witness :
    QuoteKeyWF DataCache.empty ("quote:" ++ "A") ∧
    (aggGetQuote DataCache.empty "A" none none 0).1 = none ∧
    (aggGetQuote (aggGetQuote DataCache.empty "A" none none 0).2.1 "A"
      none none 0).2.2 = true := by
  have hWF : QuoteKeyWF DataCache.empty ("quote:" ++ "A") := by
    intro p hp
    simp [DataCache.empty] at hp
  have hres : (aggGetQuote DataCache.empty "A" none none 0).1 = none := rfl
  exact ⟨hWF, hres,
    (aggregator_never_caches_empty DataCache.empty "A" "q" .p1y none none
      none none [] [] [] [] [] [] 0 0).2.1 hWF hres⟩

end StockPredictor
